import Mathlib

/-!
Verification of the registration-form validation workflow of the
`client_mobile` repository (`src/screens/RegistrationScreen.tsx`).

The development embeds:
  * the field set of `FormValues` and the validation rules declared in
    `registrationSchema` (required messages, the corporate-domain regex
    `[A-Za-z0-9._%+-]+@edu\.hse\.ru`, the email-format rule of the
    validation library, the fail-closed availability check);
  * the form-validation coordinator described in the design document
    (sequence-numbered email edits, supersession of stale availability
    checks, submission gating on the `loading` flag);
  * the `encodeURIComponent` escaping used to build the
    `/api/check-email` request.
-/

namespace ClientMobile

/-- Field names of the registration form, from `FormValues` in
`RegistrationScreen.tsx`. -/
inductive Field where
  | surname
  | name
  | patronymic
  | email
  | programId
  | yearAdmission
  | group
  deriving DecidableEq, Repr

/-- Validity of a single field, from the spec's data model: `Unvalidated`,
`Valid`, `Invalid(reason)`, and `Pending` while an async check is in flight. -/
inductive FieldValidity where
  | Unvalidated
  | Valid
  | Invalid (reason : String)
  | Pending
  deriving DecidableEq, Repr

/-- Characters allowed in the local part by the corporate-domain regex
`/^[A-Za-z0-9._%+-]+@edu\.hse\.ru$/` of `registrationSchema.email`. -/
def isCorpChar (c : Char) : Bool :=
  c.isAlphanum || c == '.' || c == '_' || c == '%' || c == '+' || c == '-'

/-- Splits a character list on a separator character; the separator itself is
dropped and empty groups are kept (so the number of groups is one more than
the number of separators). -/
def splitOnChar (sep : Char) : List Char → List (List Char)
  | [] => [[]]
  | c :: rest =>
    if c = sep then [] :: splitOnChar sep rest
    else
      match splitOnChar sep rest with
      | [] => [[c]]
      | g :: gs => (c :: g) :: gs

/-- The corporate-domain pattern of `registrationSchema.email`: the regex
`/^[A-Za-z0-9._%+-]+@edu\.hse\.ru$/`. Since neither the local-part class nor
the literal domain contains `@`, a string matches exactly when it has a single
`@`, a non-empty local part drawn from the class, and exactly the domain
`edu.hse.ru` after the `@`. -/
def corporateOk (s : String) : Bool :=
  match splitOnChar '@' s.data with
  | [loc, domain] =>
    !loc.isEmpty && loc.all isCorpChar && decide (domain = "edu.hse.ru".data)
  | _ => false

/-- Characters allowed in the local part by the validation library's
email-format rule (the WHATWG email pattern used by the `.email(...)` rule of
`registrationSchema`): alphanumerics and ``.!#$%&'*+/=?^_`{|}~-``. -/
def isEmailLocalChar (c : Char) : Bool :=
  c.isAlphanum || c == '.' || c == '!' || c == '#' || c == '$' || c == '%' ||
  c == '&' || c == Char.ofNat 39 || c == '*' || c == '+' || c == '/' ||
  c == '=' || c == '?' || c == '^' || c == '_' || c == Char.ofNat 96 ||
  c == Char.ofNat 123 || c == '|' || c == Char.ofNat 125 || c == '~' || c == '-'

/-- Characters allowed inside a domain label by the email-format rule. -/
def isLabelChar (c : Char) : Bool :=
  c.isAlphanum || c == '-'

/-- A domain label of the email-format rule: 1 to 63 characters, alphanumerics
and hyphens, starting and ending with an alphanumeric. -/
def labelOk (lab : List Char) : Bool :=
  lab.length ≤ 63 &&
  (match lab.head?, lab.getLast? with
   | some a, some b => a.isAlphanum && b.isAlphanum
   | _, _ => false) &&
  lab.all isLabelChar

/-- Domain part of the email-format rule: dot-separated labels, each valid. -/
def emailDomainOk (l : List Char) : Bool :=
  (splitOnChar '.' l).all labelOk

/-- Modelled from the spec: the email-format rule applied by the validation
library's `.email('Некорректный формат email')` test of `registrationSchema`
(library code, not part of this repository): the WHATWG pattern — a non-empty
local part of allowed characters, one `@`, and a valid label sequence. -/
def emailFormatOk (s : String) : Bool :=
  match splitOnChar '@' s.data with
  | [loc, domain] => !loc.isEmpty && loc.all isEmailLocalChar && emailDomainOk domain
  | _ => false

/-- Required-field message of each field, from `registrationSchema`. The
patronymic field has no rule in the schema. -/
def requiredMsg : Field → String
  | Field.surname => "Фамилия обязательна"
  | Field.name => "Имя обязательно"
  | Field.email => "Email обязателен"
  | Field.programId => "Выберите направление"
  | Field.yearAdmission => "Укажите год поступления"
  | Field.group => "Укажите группу"
  | Field.patronymic => ""

/-- Synchronous validation of one field, from `registrationSchema`: required
non-empty for the six required fields; for email additionally the library
email-format rule and the corporate-domain pattern, in the order the rules are
chained in the schema. Patronymic has no rule and is always valid. -/
def fieldSyncValidity (f : Field) (v : String) : FieldValidity :=
  match f with
  | Field.patronymic => FieldValidity.Valid
  | Field.email =>
    if v = "" then FieldValidity.Invalid "Email обязателен"
    else if !emailFormatOk v then FieldValidity.Invalid "Некорректный формат email"
    else if !corporateOk v then FieldValidity.Invalid "Только корпоративные email @edu.hse.ru"
    else FieldValidity.Valid
  | f => if v = "" then FieldValidity.Invalid (requiredMsg f) else FieldValidity.Valid

/-- Result of the availability test body in `registrationSchema`: the value of
`response.data.available` on success, and `false` on any transport error (the
`catch { return false }` branch — fail closed). -/
def checkEmailAvailability (result : Except String Bool) : Bool :=
  match result with
  | Except.ok b => b
  | Except.error _ => false

/-- Full validity of the email field given the availability-check outcome
(`none` while the check is in flight): the async `email-available` test of
`registrationSchema` runs after the synchronous rules pass. -/
def emailFullValidity (v : String) (r : Option Bool) : FieldValidity :=
  match fieldSyncValidity Field.email v with
  | FieldValidity.Valid =>
    match r with
    | none => FieldValidity.Pending
    | some true => FieldValidity.Valid
    | some false => FieldValidity.Invalid "Email уже зарегистрирован"
  | other => other

/-- Per-field validity of a whole form, from `registrationSchema`, given the
availability-check outcome for the email field. -/
def registrationValidate (vals : Field → String) (r : Option Bool) : Field → FieldValidity :=
  fun f =>
    if f = Field.email then emailFullValidity (vals Field.email) r
    else fieldSyncValidity f (vals f)

/-- The required fields of the form (all but patronymic). -/
def requiredFields : List Field :=
  [Field.surname, Field.name, Field.email, Field.programId,
   Field.yearAdmission, Field.group]

/-- Overall submittability of a validity assignment: every required field is
`Valid` (the spec's `isSubmittable`). -/
def isSubmittableOf (validity : Field → FieldValidity) : Bool :=
  requiredFields.all fun f => decide (validity f = FieldValidity.Valid)

/-- Submission state of the spec's data model: `Idle`, `Submitting`,
`Succeeded`, `Failed(message)`. In `RegistrationScreen.tsx`, `Submitting`
corresponds to `loading = true` inside `handleSubmit`. -/
inductive SubmissionState where
  | Idle
  | Submitting
  | Succeeded
  | Failed (message : String)
  deriving DecidableEq, Repr

/-- Modelled from the spec: the state of the FormValidationCoordinator, which
the repository realises through Formik state, the `loading` flag and the
validation library; the coordinator object itself is not a source file.
`seq` is the monotonically increasing sequence number tagging email edits. -/
structure CoordState where
  values : Field → String
  validity : Field → FieldValidity
  seq : Nat
  submission : SubmissionState
  loading : Bool

/-- External events driving the coordinator: field edits, resolution of an
in-flight availability check (tagged with the sequence number it captured),
a press of the submit button, and resolution of the registration request
(`Except.error payload` carries `error.response?.data?.message` when the
server provided one). -/
inductive Event where
  | editField (f : Field) (value : String)
  | checkResolved (n : Nat) (result : Except String Bool)
  | pressSubmit
  | submitResolved (result : Except (Option String) Unit)

/-- Outbound requests issued by a step: the GET availability check and the
POST of the registration form. -/
inductive Action where
  | sendCheck (email : String) (n : Nat)
  | sendRegister (values : Field → String)

/-- True exactly for registration POST actions. -/
def isRegisterAction : Action → Bool
  | Action.sendRegister _ => true
  | _ => false

/-- Submission may be (re-)attempted from `Idle` and from `Failed` (retry),
never from `Submitting` or `Succeeded`. -/
def submissionAllowsAttempt : SubmissionState → Bool
  | SubmissionState.Idle => true
  | SubmissionState.Failed _ => true
  | _ => false

/-- Guard of a submit press: the button is disabled while `loading`
(`disabled={loading}` in `RegistrationScreen.tsx`), and the spec's
precondition requires a submittable snapshot and an `Idle`/`Failed`
submission state. -/
def canSubmit (s : CoordState) : Bool :=
  !s.loading && isSubmittableOf s.validity && submissionAllowsAttempt s.submission

/-- Modelled from the spec: one step of the FormValidationCoordinator (the
coordinator is the spec's abstraction of Formik + the validation library,
not a source file; the email rules, the fail-closed availability result, the
`loading` flag and the error-message fallback are taken from
`RegistrationScreen.tsx`). An email edit advances the sequence number,
re-runs the synchronous rules, and dispatches the availability check only
when they pass; a check resolution is applied only when its sequence number
is still current (supersession); a submit press is a no-op unless
`canSubmit`; a submit resolution always clears `loading` (the `finally`
block of `handleSubmit`) and moves to `Succeeded` or
`Failed(message || fallback)`. -/
def step (s : CoordState) : Event → CoordState × List Action
  | Event.editField f v =>
    if f = Field.email then
      if fieldSyncValidity Field.email v = FieldValidity.Valid then
        ({ s with values := Function.update s.values Field.email v,
                  seq := s.seq + 1,
                  validity := Function.update s.validity Field.email FieldValidity.Pending },
         [Action.sendCheck v (s.seq + 1)])
      else
        ({ s with values := Function.update s.values Field.email v,
                  seq := s.seq + 1,
                  validity := Function.update s.validity Field.email
                    (fieldSyncValidity Field.email v) },
         [])
    else
      ({ s with values := Function.update s.values f v,
                validity := Function.update s.validity f (fieldSyncValidity f (v)) },
       [])
  | Event.checkResolved n r =>
    if n = s.seq ∧ s.validity Field.email = FieldValidity.Pending then
      ({ s with validity := Function.update s.validity Field.email
                  (if checkEmailAvailability r then FieldValidity.Valid
                   else FieldValidity.Invalid "Email уже зарегистрирован") },
       [])
    else
      (s, [])
  | Event.pressSubmit =>
    if canSubmit s then
      ({ s with loading := true, submission := SubmissionState.Submitting },
       [Action.sendRegister s.values])
    else
      (s, [])
  | Event.submitResolved r =>
    match r with
    | Except.ok _ =>
      ({ s with loading := false, submission := SubmissionState.Succeeded }, [])
    | Except.error payload =>
      ({ s with loading := false,
                submission := SubmissionState.Failed (payload.getD "Ошибка сервера") },
       [])

/-- Runs a list of events from a state, accumulating the issued actions. -/
def runEvents (s : CoordState) : List Event → CoordState × List Action
  | [] => (s, [])
  | e :: es =>
    let p := step s e
    let q := runEvents p.1 es
    (q.1, p.2 ++ q.2)

/-- State reached after one email edit. -/
def afterEdit (s : CoordState) (v : String) : CoordState :=
  (step s (Event.editField Field.email v)).1

/-- The empty form at screen entry. -/
def initialState : CoordState :=
  { values := fun _ => ""
    validity := fun _ => FieldValidity.Unvalidated
    seq := 0
    submission := SubmissionState.Idle
    loading := false }

/-- Uppercase hexadecimal digit of `n mod 16`. -/
def hexDigit (n : Nat) : Char :=
  "0123456789ABCDEF".data.getD (n % 16) 'F'

/-- Percent-escape of one byte: `%` followed by two uppercase hex digits. -/
def percentByte (b : Nat) : List Char :=
  ['%', hexDigit (b / 16), hexDigit b]

/-- UTF-8 bytes of a character (as natural numbers below 256). -/
def utf8Bytes (c : Char) : List Nat :=
  let n := c.toNat
  if n < 128 then [n]
  else if n < 2048 then [192 + n / 64, 128 + n % 64]
  else if n < 65536 then [224 + n / 4096, 128 + n / 64 % 64, 128 + n % 64]
  else [240 + n / 262144, 128 + n / 4096 % 64, 128 + n / 64 % 64, 128 + n % 64]

/-- Characters left unescaped by `encodeURIComponent`: ASCII alphanumerics
and `- _ . ! ~ * ' ( )`. -/
def isUriUnescaped (c : Char) : Bool :=
  c.isAlphanum || c == '-' || c == '_' || c == '.' || c == '!' || c == '~' ||
  c == '*' || c == Char.ofNat 39 || c == '(' || c == ')'

/-- Modelled from the spec: the JavaScript builtin `encodeURIComponent` used
in `registrationSchema`'s availability test (the builtin is host code, not a
source file): unescaped characters pass through, all others are replaced by
the percent-escapes of their UTF-8 bytes. -/
def encodeURIComponent (s : String) : String :=
  String.mk (s.data.flatMap fun c =>
    if isUriUnescaped c then [c] else (utf8Bytes c).flatMap percentByte)

/-- The availability-check request line built in `registrationSchema`:
`/api/check-email?email=` followed by the encoded email value. -/
def checkEmailUri (email : String) : String :=
  "/api/check-email?email=" ++ encodeURIComponent email

/-- Characters that may appear in `encodeURIComponent` output: the unescaped
set plus the escape character `%`. -/
def uriSafeChar (c : Char) : Bool :=
  isUriUnescaped c || c == '%'

/-- Joins groups with a separator character; inverse of `splitOnChar`. -/
def joinSep (sep : Char) : List (List Char) → List Char
  | [] => []
  | [g] => g
  | g :: gs => g ++ sep :: joinSep sep gs

/-- A fully valid form used to witness concrete runs. -/
def filledValues : Field → String
  | Field.surname => "Иванов"
  | Field.name => "Иван"
  | Field.patronymic => ""
  | Field.email => "ivanov@edu.hse.ru"
  | Field.programId => "1"
  | Field.yearAdmission => "2024"
  | Field.group => "2"

/-- A coordinator state that is submittable and idle. -/
def readyState : CoordState :=
  { values := filledValues
    validity := fun _ => FieldValidity.Valid
    seq := 0
    submission := SubmissionState.Idle
    loading := false }

/-- A coordinator state captured while a submission is in flight. -/
def submittingState : CoordState :=
  { values := filledValues
    validity := fun _ => FieldValidity.Valid
    seq := 0
    submission := SubmissionState.Submitting
    loading := true }

/-! Helper lemmas about `splitOnChar` and the character classes. -/

theorem splitOnChar_ne_nil (sep : Char) (l : List Char) : splitOnChar sep l ≠ [] := by
  cases l with
  | nil => simp [splitOnChar]
  | cons c t =>
    simp only [splitOnChar]
    split
    · simp
    · split <;> simp

theorem joinSep_cons_cons (sep c : Char) (g : List Char) (gs : List (List Char)) :
    joinSep sep ((c :: g) :: gs) = c :: joinSep sep (g :: gs) := by
  cases gs with
  | nil => rfl
  | cons g2 gs2 => rfl

theorem joinSep_splitOnChar (sep : Char) (l : List Char) :
    joinSep sep (splitOnChar sep l) = l := by
  induction l with
  | nil => rfl
  | cons c t ih =>
    simp only [splitOnChar]
    by_cases hc : c = sep
    · simp only [hc, if_pos rfl]
      rcases ht : splitOnChar sep t with _ | ⟨g, gs⟩
      · exact absurd ht (splitOnChar_ne_nil sep t)
      · rw [ht] at ih
        calc joinSep sep ([] :: g :: gs) = sep :: joinSep sep (g :: gs) := rfl
        _ = sep :: t := by rw [ih]
    · rw [if_neg hc]
      rcases ht : splitOnChar sep t with _ | ⟨g, gs⟩
      · exact absurd ht (splitOnChar_ne_nil sep t)
      · rw [ht] at ih
        rw [joinSep_cons_cons, ih]

theorem splitOnChar_no_sep (sep : Char) (l : List Char) (h : ∀ c ∈ l, c ≠ sep) :
    splitOnChar sep l = [l] := by
  induction l with
  | nil => rfl
  | cons c t ih =>
    have hc : c ≠ sep := h c (by simp)
    have ht : splitOnChar sep t = [t] := ih fun d hd => h d (by simp [hd])
    simp only [splitOnChar, if_neg hc, ht]

theorem splitOnChar_append (sep : Char) (l r : List Char) (h : ∀ c ∈ l, c ≠ sep) :
    splitOnChar sep (l ++ sep :: r) = l :: splitOnChar sep r := by
  induction l with
  | nil => simp [splitOnChar]
  | cons c t ih =>
    have hc : c ≠ sep := h c (by simp)
    have ht := ih fun d hd => h d (by simp [hd])
    rw [List.cons_append]
    simp only [splitOnChar, if_neg hc]
    rw [ht]

theorem isCorpChar_ne_at (c : Char) (h : isCorpChar c = true) : c ≠ '@' := by
  intro hc
  subst hc
  exact absurd h (by decide)

theorem isCorpChar_emailLocal (c : Char) (h : isCorpChar c = true) :
    isEmailLocalChar c = true := by
  simp only [isCorpChar, Bool.or_eq_true, beq_iff_eq] at h
  simp only [isEmailLocalChar, Bool.or_eq_true, beq_iff_eq]
  tauto

theorem corporateOk_eq_of_split (s : String) (loc dom : List Char)
    (h : splitOnChar '@' s.data = [loc, dom]) :
    corporateOk s =
      (!loc.isEmpty && loc.all isCorpChar && decide (dom = "edu.hse.ru".data)) := by
  unfold corporateOk
  rw [h]

theorem emailFormatOk_eq_of_split (s : String) (loc dom : List Char)
    (h : splitOnChar '@' s.data = [loc, dom]) :
    emailFormatOk s = (!loc.isEmpty && loc.all isEmailLocalChar && emailDomainOk dom) := by
  unfold emailFormatOk
  rw [h]

theorem corporateOk_iff (s : String) :
    corporateOk s = true ↔
      ∃ loc, s.data = loc ++ ('@' :: "edu.hse.ru".data) ∧ loc ≠ [] ∧
        ∀ c ∈ loc, isCorpChar c = true := by
  constructor
  · intro h
    rcases hL : splitOnChar '@' s.data with _ | ⟨loc, gs⟩
    · simp [corporateOk, hL] at h
    rcases gs with _ | ⟨dom, gs2⟩
    · simp [corporateOk, hL] at h
    rcases gs2 with _ | ⟨x, gs3⟩
    case cons.cons.cons => simp [corporateOk, hL] at h
    rw [corporateOk_eq_of_split s loc dom hL] at h
    simp only [Bool.and_eq_true, decide_eq_true_eq, List.all_eq_true,
      Bool.not_eq_true', List.isEmpty_eq_false] at h
    obtain ⟨⟨hne, hall⟩, hdom⟩ := h
    refine ⟨loc, ?_, hne, hall⟩
    have hjoin := joinSep_splitOnChar '@' s.data
    rw [hL] at hjoin
    rw [← hjoin, hdom]
    rfl
  · rintro ⟨loc, hs, hne, hall⟩
    have hnosep : ∀ c ∈ loc, c ≠ '@' := fun c hc => isCorpChar_ne_at c (hall c hc)
    have hdom : ∀ c ∈ "edu.hse.ru".data, c ≠ '@' := by decide
    have hL : splitOnChar '@' s.data = [loc, "edu.hse.ru".data] := by
      rw [hs, splitOnChar_append '@' loc _ hnosep, splitOnChar_no_sep '@' _ hdom]
    rw [corporateOk_eq_of_split s loc _ hL]
    simp only [Bool.and_eq_true, decide_eq_true_eq, List.all_eq_true,
      Bool.not_eq_true', List.isEmpty_eq_false]
    exact ⟨⟨hne, hall⟩, trivial⟩

theorem corporate_implies_emailFormat (s : String) (h : corporateOk s = true) :
    emailFormatOk s = true := by
  obtain ⟨loc, hs, hne, hall⟩ := (corporateOk_iff s).mp h
  have hnosep : ∀ c ∈ loc, c ≠ '@' := fun c hc => isCorpChar_ne_at c (hall c hc)
  have hdom : ∀ c ∈ "edu.hse.ru".data, c ≠ '@' := by decide
  have hL : splitOnChar '@' s.data = [loc, "edu.hse.ru".data] := by
    rw [hs, splitOnChar_append '@' loc _ hnosep, splitOnChar_no_sep '@' _ hdom]
  rw [emailFormatOk_eq_of_split s loc _ hL]
  simp only [Bool.and_eq_true, List.all_eq_true, Bool.not_eq_true', List.isEmpty_eq_false]
  refine ⟨⟨hne, fun c hc => isCorpChar_emailLocal c (hall c hc)⟩, ?_⟩
  decide

theorem fieldSync_email_cases (v : String) :
    fieldSyncValidity Field.email v = FieldValidity.Valid ∨
    ∃ m, fieldSyncValidity Field.email v = FieldValidity.Invalid m := by
  rw [fieldSyncValidity]
  split_ifs <;> simp

theorem isSubmittableOf_false_of_invalid (validity : Field → FieldValidity) (f : Field)
    (hf : f ∈ requiredFields) (m : String) (hm : validity f = FieldValidity.Invalid m) :
    isSubmittableOf validity = false := by
  by_contra hs
  have hb : isSubmittableOf validity = true := by
    cases h2 : isSubmittableOf validity
    · exact absurd h2 hs
    · rfl
  rw [isSubmittableOf] at hb
  have hv := of_decide_eq_true (List.all_eq_true.mp hb f hf)
  rw [hm] at hv
  exact FieldValidity.noConfusion hv

/-! Claim theorems. -/

/-- C4: the synchronous email validation marks the email field `Valid` only
when the string matches the corporate pattern — a non-empty local part of
alphanumerics and `._%+-`, an `@`, and exactly the domain `edu.hse.ru` — and
every string that fails the pattern is marked `Invalid`. -/
theorem email_pattern_only_corporate (v : String) :
    (fieldSyncValidity Field.email v = FieldValidity.Valid → corporateOk v = true) ∧
    (corporateOk v = false →
      ∃ m, fieldSyncValidity Field.email v = FieldValidity.Invalid m) ∧
    (corporateOk v = true ↔
      ∃ loc, v.data = loc ++ ('@' :: "edu.hse.ru".data) ∧ loc ≠ [] ∧
        ∀ c ∈ loc, isCorpChar c = true) := by
  refine ⟨?_, ?_, corporateOk_iff v⟩
  · intro h
    rw [fieldSyncValidity] at h
    split_ifs at h with h1 h2 h3
    simpa using h3
  · intro hc
    rw [fieldSyncValidity]
    split_ifs with h1 h2 h3
    · exact ⟨_, rfl⟩
    · exact ⟨_, rfl⟩
    · exact ⟨_, rfl⟩
    · exact absurd (by simp [hc]) h3

/-- C4 witness: `"a@gmail.com"` fails the corporate pattern and is marked
`Invalid` by the synchronous email validation. -/
theorem email_pattern_only_corporate_witness :
    corporateOk "a@gmail.com" = false ∧
    ∃ m, fieldSyncValidity Field.email "a@gmail.com" = FieldValidity.Invalid m :=
  ⟨by decide, (email_pattern_only_corporate "a@gmail.com").2.1 (by decide)⟩

/-- C6: a form whose required field `f` is empty has `f` marked `Invalid`,
is not submittable, and the patronymic field is always `Valid` (it has no
rule), whatever the rest of the form holds. -/
theorem required_fields_invalid_when_empty (vals : Field → String) (r : Option Bool)
    (f : Field) (hf : f ∈ requiredFields) (hempty : vals f = "") :
    (∃ m, registrationValidate vals r f = FieldValidity.Invalid m) ∧
    isSubmittableOf (registrationValidate vals r) = false ∧
    registrationValidate vals r Field.patronymic = FieldValidity.Valid := by
  have hinv : ∃ m, registrationValidate vals r f = FieldValidity.Invalid m := by
    fin_cases hf <;>
      simp_all [registrationValidate, emailFullValidity, fieldSyncValidity, requiredMsg]
  obtain ⟨m, hm⟩ := hinv
  exact ⟨⟨m, hm⟩, isSubmittableOf_false_of_invalid _ f hf m hm,
    by simp [registrationValidate, fieldSyncValidity]⟩

/-- C6 witness: the empty form has an `Invalid` email field, is not
submittable, and its patronymic field is `Valid`. -/
theorem required_fields_invalid_when_empty_witness :
    (∃ m, registrationValidate (fun _ => "") none Field.email = FieldValidity.Invalid m) ∧
    isSubmittableOf (registrationValidate (fun _ => "") none) = false ∧
    registrationValidate (fun _ => "") none Field.patronymic = FieldValidity.Valid :=
  required_fields_invalid_when_empty (fun _ => "") none Field.email (by decide) rfl

/-- C5: a form with all required fields non-empty, a corporate-pattern email
and an available email is submittable; and a submittable snapshot has no
field `Invalid` or `Pending`. -/
theorem submittable_sound_complete (vals : Field → String) (r : Option Bool) :
    ((∀ f ∈ requiredFields, vals f ≠ "") → corporateOk (vals Field.email) = true →
      r = some true → isSubmittableOf (registrationValidate vals r) = true) ∧
    (isSubmittableOf (registrationValidate vals r) = true →
      ∀ f, (∀ m, registrationValidate vals r f ≠ FieldValidity.Invalid m) ∧
        registrationValidate vals r f ≠ FieldValidity.Pending) := by
  constructor
  · intro hreq hcorp hr
    subst hr
    have hfmt := corporate_implies_emailFormat _ hcorp
    have hsync : fieldSyncValidity Field.email (vals Field.email) = FieldValidity.Valid := by
      simp [fieldSyncValidity, hreq Field.email (by decide), hfmt, hcorp]
    have hemail : emailFullValidity (vals Field.email) (some true) = FieldValidity.Valid := by
      simp [emailFullValidity, hsync]
    rw [isSubmittableOf, List.all_eq_true]
    intro f hf
    rw [decide_eq_true_eq]
    fin_cases hf
    · simp [registrationValidate, fieldSyncValidity, hreq Field.surname (by decide)]
    · simp [registrationValidate, fieldSyncValidity, hreq Field.name (by decide)]
    · simp [registrationValidate, hemail]
    · simp [registrationValidate, fieldSyncValidity, hreq Field.programId (by decide)]
    · simp [registrationValidate, fieldSyncValidity, hreq Field.yearAdmission (by decide)]
    · simp [registrationValidate, fieldSyncValidity, hreq Field.group (by decide)]
  · intro h f
    have hv : ∀ g ∈ requiredFields, registrationValidate vals r g = FieldValidity.Valid := by
      intro g hg
      rw [isSubmittableOf] at h
      exact of_decide_eq_true (List.all_eq_true.mp h g hg)
    cases f with
    | patronymic => simp [registrationValidate, fieldSyncValidity]
    | surname => simp [hv Field.surname (by decide)]
    | name => simp [hv Field.name (by decide)]
    | email => simp [hv Field.email (by decide)]
    | programId => simp [hv Field.programId (by decide)]
    | yearAdmission => simp [hv Field.yearAdmission (by decide)]
    | group => simp [hv Field.group (by decide)]

/-- C5 witness: the filled form with an available corporate email is
submittable. -/
theorem submittable_sound_complete_witness :
    isSubmittableOf (registrationValidate filledValues (some true)) = true :=
  (submittable_sound_complete filledValues (some true)).1 (by decide) (by decide) rfl

/-- C3: a transport failure of the availability check yields `available =
false` (fail closed), makes the email field `Invalid`, and leaves the form
not submittable, for every form state. -/
theorem availability_fail_closed (vals : Field → String) (e : String) :
    checkEmailAvailability (Except.error e) = false ∧
    (∃ m, registrationValidate vals (some (checkEmailAvailability (Except.error e)))
        Field.email = FieldValidity.Invalid m) ∧
    isSubmittableOf (registrationValidate vals (some (checkEmailAvailability (Except.error e))))
      = false := by
  have hinv : ∃ m, registrationValidate vals (some (checkEmailAvailability (Except.error e)))
      Field.email = FieldValidity.Invalid m := by
    rcases fieldSync_email_cases (vals Field.email) with hs | ⟨m, hm⟩
    · exact ⟨"Email уже зарегистрирован",
        by simp [registrationValidate, emailFullValidity, hs, checkEmailAvailability]⟩
    · exact ⟨m, by simp [registrationValidate, emailFullValidity, hm]⟩
  obtain ⟨m, hm⟩ := hinv
  exact ⟨rfl, ⟨m, hm⟩, isSubmittableOf_false_of_invalid _ Field.email (by decide) m hm⟩

/-- C3 witness: with every field empty and a timed-out check, availability is
`false`, the email field is `Invalid` and the form is not submittable. -/
theorem availability_fail_closed_witness :
    checkEmailAvailability (Except.error "timeout") = false ∧
    (∃ m, registrationValidate (fun _ => "")
        (some (checkEmailAvailability (Except.error "timeout")))
        Field.email = FieldValidity.Invalid m) ∧
    isSubmittableOf (registrationValidate (fun _ => "")
        (some (checkEmailAvailability (Except.error "timeout")))) = false :=
  availability_fail_closed (fun _ => "") "timeout"

/-! Lemmas about the coordinator's step function. -/

theorem afterEdit_seq (s : CoordState) (v : String) : (afterEdit s v).seq = s.seq + 1 := by
  rw [afterEdit]
  simp only [step, if_true]
  split <;> rfl

theorem afterEdit_validity_valid (s : CoordState) (v : String)
    (hv : fieldSyncValidity Field.email v = FieldValidity.Valid) :
    (afterEdit s v).validity Field.email = FieldValidity.Pending := by
  rw [afterEdit]
  simp [step, hv]

theorem step_check_seq (s : CoordState) (n : Nat) (r : Except String Bool) :
    ((step s (Event.checkResolved n r)).1).seq = s.seq := by
  simp only [step]
  split <;> rfl

theorem step_check_actions (s : CoordState) (n : Nat) (r : Except String Bool) :
    (step s (Event.checkResolved n r)).2 = [] := by
  simp only [step]
  split <;> rfl

theorem stale_check_noop (s : CoordState) (n : Nat) (r : Except String Bool)
    (h : n ≠ s.seq) : step s (Event.checkResolved n r) = (s, []) := by
  simp only [step]
  exact if_neg fun hc => h hc.1

theorem check_applies (s : CoordState) (r : Except String Bool)
    (hp : s.validity Field.email = FieldValidity.Pending) :
    (step s (Event.checkResolved s.seq r)).1.validity Field.email
      = (if checkEmailAvailability r then FieldValidity.Valid
         else FieldValidity.Invalid "Email уже зарегистрирован") := by
  simp [step, hp]

/-- C1: after two email edits in a row, the check dispatched for the first
edit is discarded if it resolves after the one dispatched for the second:
its resolution is a no-op, both before and after the later check's result
has been applied, so only the validity derived from the latest edit is
retained. Sequence numbers grow by one at each edit. -/
theorem stale_email_check_superseded (s : CoordState) (a b : String)
    (r1 r2 : Except String Bool) :
    (afterEdit s a).seq = s.seq + 1 ∧
    (afterEdit (afterEdit s a) b).seq = s.seq + 2 ∧
    step (afterEdit (afterEdit s a) b) (Event.checkResolved (afterEdit s a).seq r1)
      = (afterEdit (afterEdit s a) b, []) ∧
    step ((step (afterEdit (afterEdit s a) b)
            (Event.checkResolved (afterEdit (afterEdit s a) b).seq r2)).1)
        (Event.checkResolved (afterEdit s a).seq r1)
      = ((step (afterEdit (afterEdit s a) b)
            (Event.checkResolved (afterEdit (afterEdit s a) b).seq r2)).1, []) ∧
    (fieldSyncValidity Field.email b = FieldValidity.Valid →
      (step (afterEdit (afterEdit s a) b)
          (Event.checkResolved (afterEdit (afterEdit s a) b).seq r2)).1.validity Field.email
        = (if checkEmailAvailability r2 then FieldValidity.Valid
           else FieldValidity.Invalid "Email уже зарегистрирован")) := by
  have h1 := afterEdit_seq s a
  have h2 := afterEdit_seq (afterEdit s a) b
  refine ⟨h1, by rw [h2, h1], ?_, ?_, ?_⟩
  · apply stale_check_noop
    rw [h2, h1]
    omega
  · apply stale_check_noop
    rw [step_check_seq, h2, h1]
    omega
  · intro hb
    exact check_applies _ r2 (afterEdit_validity_valid _ b hb)

/-- C1 witness: editing `a@edu.hse.ru` then `b@edu.hse.ru` from the empty
form and letting the second check resolve first with `available`, the email
validity is the one derived from the second edit. -/
theorem stale_email_check_superseded_witness :
    (step (afterEdit (afterEdit initialState "a@edu.hse.ru") "b@edu.hse.ru")
        (Event.checkResolved
          (afterEdit (afterEdit initialState "a@edu.hse.ru") "b@edu.hse.ru").seq
          (Except.ok true))).1.validity Field.email
      = (if checkEmailAvailability (Except.ok true) then FieldValidity.Valid
         else FieldValidity.Invalid "Email уже зарегистрирован") :=
  (stale_email_check_superseded initialState "a@edu.hse.ru" "b@edu.hse.ru"
    (Except.ok false) (Except.ok true)).2.2.2.2 (by decide)

/-- C7: an email edit whose synchronous validation fails dispatches no
request, and any availability check dispatched by any event carries an email
that currently passes the synchronous rules. -/
theorem async_check_gated (s : CoordState) (v : String) :
    (fieldSyncValidity Field.email v ≠ FieldValidity.Valid →
      (step s (Event.editField Field.email v)).2 = []) ∧
    (∀ (e : Event) (em : String) (n : Nat),
      Action.sendCheck em n ∈ (step s e).2 →
      fieldSyncValidity Field.email em = FieldValidity.Valid) := by
  constructor
  · intro h
    simp [step, h]
  · intro e em n hm
    cases e with
    | editField f v2 =>
      by_cases hf : f = Field.email
      · subst hf
        by_cases hv : fieldSyncValidity Field.email v2 = FieldValidity.Valid
        · simp [step, hv] at hm
          obtain ⟨h1, h2⟩ := hm
          exact h1 ▸ hv
        · simp [step, hv] at hm
      · simp [step, hf] at hm
    | checkResolved n2 r =>
      rw [step_check_actions] at hm
      exact absurd hm (by simp)
    | pressSubmit =>
      by_cases hc : canSubmit s = true
      · simp [step, hc] at hm
      · simp [step, hc] at hm
    | submitResolved r =>
      cases r with
      | ok u => simp [step] at hm
      | error p => simp [step] at hm

/-- C7 witness: editing the email to `a@gmail.com` (pattern failure)
dispatches no availability check. -/
theorem async_check_gated_witness :
    (step initialState (Event.editField Field.email "a@gmail.com")).2 = [] :=
  (async_check_gated initialState "a@gmail.com").1 (by decide)

/-- C2: a submit press while the submission is already `Submitting` is a
no-op, and two presses in rapid succession from a submittable state send
exactly one registration request. -/
theorem submit_no_duplicate (s t : CoordState)
    (hs : s.submission = SubmissionState.Submitting)
    (ht : canSubmit t = true) :
    step s Event.pressSubmit = (s, []) ∧
    ((runEvents t [Event.pressSubmit, Event.pressSubmit]).2.filter
        isRegisterAction).length = 1 := by
  constructor
  · have hc : canSubmit s = false := by
      rw [canSubmit, hs]
      simp [submissionAllowsAttempt]
    simp [step, hc]
  · rw [canSubmit] at ht
    simp only [Bool.and_eq_true, Bool.not_eq_true'] at ht
    obtain ⟨⟨h1, h2⟩, h3⟩ := ht
    simp [runEvents, step, canSubmit, h1, h2, h3, isRegisterAction]

/-- C2 witness: pressing submit in a `Submitting` state changes nothing, and
a double press from the ready form sends one request. -/
theorem submit_no_duplicate_witness :
    step submittingState Event.pressSubmit = (submittingState, []) ∧
    ((runEvents readyState [Event.pressSubmit, Event.pressSubmit]).2.filter
        isRegisterAction).length = 1 :=
  submit_no_duplicate submittingState readyState rfl (by decide)

/-- C8: a failed registration request moves the submission state to
`Failed` carrying the server message when the error payload provides one and
the generic fallback otherwise, clears `loading`, and leaves the coordinator
able to retry whenever the snapshot is submittable. -/
theorem submit_failure_semantics (s : CoordState) (payload : Option String) :
    (step s (Event.submitResolved (Except.error payload))).1.submission
      = SubmissionState.Failed (payload.getD "Ошибка сервера") ∧
    (∀ m, payload = some m →
      (step s (Event.submitResolved (Except.error payload))).1.submission
        = SubmissionState.Failed m) ∧
    (payload = none →
      (step s (Event.submitResolved (Except.error payload))).1.submission
        = SubmissionState.Failed "Ошибка сервера") ∧
    (step s (Event.submitResolved (Except.error payload))).1.loading = false ∧
    canSubmit (step s (Event.submitResolved (Except.error payload))).1
      = isSubmittableOf s.validity := by
  refine ⟨rfl, ?_, ?_, rfl, ?_⟩
  · rintro m rfl
    rfl
  · rintro rfl
    rfl
  · simp [step, canSubmit, submissionAllowsAttempt]

/-- C8 witness: a failure whose payload carries a server message ends in
`Failed` with exactly that message. -/
theorem submit_failure_semantics_witness :
    (step readyState (Event.submitResolved
        (Except.error (some "Email уже зарегистрирован")))).1.submission
      = SubmissionState.Failed "Email уже зарегистрирован" :=
  (submit_failure_semantics readyState (some "Email уже зарегистрирован")).2.1
    "Email уже зарегистрирован" rfl

/-- C9: a submit press either enters the loading state or leaves the state
unchanged, and every resolution of the registration request clears `loading`
and leaves a submission state other than `Submitting` — the coordinator can
never remain stuck in `Submitting` once the call resolves. -/
theorem submitting_always_terminates (s : CoordState) (r : Except (Option String) Unit) :
    ((step s Event.pressSubmit).1.loading = true ∨ step s Event.pressSubmit = (s, [])) ∧
    (step s (Event.submitResolved r)).1.loading = false ∧
    (step s (Event.submitResolved r)).1.submission ≠ SubmissionState.Submitting := by
  refine ⟨?_, ?_, ?_⟩
  · by_cases hc : canSubmit s = true
    · left
      simp [step, hc]
    · right
      simp [step, hc]
  · cases r with
    | ok u => rfl
    | error p => rfl
  · cases r with
    | ok u => simp [step]
    | error p => simp [step]

/-- C9 witness: resolving a successful submission from the submitting state
clears `loading` and leaves `Succeeded`, not `Submitting`. -/
theorem submitting_always_terminates_witness :
    ((step submittingState Event.pressSubmit).1.loading = true ∨
      step submittingState Event.pressSubmit = (submittingState, [])) ∧
    (step submittingState (Event.submitResolved (Except.ok ()))).1.loading = false ∧
    (step submittingState (Event.submitResolved (Except.ok ()))).1.submission
      ≠ SubmissionState.Submitting :=
  submitting_always_terminates submittingState (Except.ok ())

/-! Lemmas about the URI encoding of the availability-check request. -/

theorem hexDigit_unescaped (n : Nat) : isUriUnescaped (hexDigit n) = true := by
  have h : ∀ k < 16, isUriUnescaped ("0123456789ABCDEF".data.getD k 'F') = true := by decide
  rw [hexDigit]
  exact h (n % 16) (Nat.mod_lt _ (by decide))

theorem percentByte_chars (b : Nat) (c : Char) (hc : c ∈ percentByte b) :
    uriSafeChar c = true := by
  rw [percentByte] at hc
  simp only [List.mem_cons, List.not_mem_nil, or_false] at hc
  rcases hc with rfl | rfl | rfl
  · decide
  · simp [uriSafeChar, hexDigit_unescaped]
  · simp [uriSafeChar, hexDigit_unescaped]

theorem encodeURIComponent_chars (s : String) (c : Char)
    (hc : c ∈ (encodeURIComponent s).data) : uriSafeChar c = true := by
  have hc2 : c ∈ s.data.flatMap (fun a =>
      if isUriUnescaped a then [a] else (utf8Bytes a).flatMap percentByte) := hc
  obtain ⟨a, ha, hca⟩ := List.mem_flatMap.mp hc2
  by_cases hu : isUriUnescaped a = true
  · rw [if_pos hu] at hca
    simp only [List.mem_singleton] at hca
    subst hca
    simp [uriSafeChar, hu]
  · rw [if_neg hu] at hca
    obtain ⟨b2, hb2, hcb⟩ := List.mem_flatMap.mp hca
    exact percentByte_chars b2 c hcb

/-- C10: every character of the URI-encoded email value is drawn from the
unescaped set or is the escape character, so the characters special in URLs
(`&`, `+`, `=`, `?`, `#`) never occur raw in the query value of the
`/api/check-email` request. -/
theorem check_email_request_encoded (email : String) (c : Char)
    (hc : c ∈ (encodeURIComponent email).data) :
    uriSafeChar c = true ∧ c ≠ '&' ∧ c ≠ '+' ∧ c ≠ '=' ∧ c ≠ '?' ∧ c ≠ '#' ∧
    checkEmailUri email = "/api/check-email?email=" ++ encodeURIComponent email := by
  have hs := encodeURIComponent_chars email c hc
  refine ⟨hs, ?_, ?_, ?_, ?_, ?_, rfl⟩ <;> (rintro rfl; exact absurd hs (by decide))

/-- C10 witness: encoding `a+b@edu.hse.ru` yields an escape character in the
output (the `+` is percent-encoded) and the conclusion holds for it. -/
theorem check_email_request_encoded_witness :
    '%' ∈ (encodeURIComponent "a+b@edu.hse.ru").data ∧
    (uriSafeChar '%' = true ∧ '%' ≠ '&' ∧ '%' ≠ '+' ∧ '%' ≠ '=' ∧ '%' ≠ '?' ∧ '%' ≠ '#' ∧
      checkEmailUri "a+b@edu.hse.ru"
        = "/api/check-email?email=" ++ encodeURIComponent "a+b@edu.hse.ru") :=
  ⟨by decide, check_email_request_encoded "a+b@edu.hse.ru" '%' (by decide)⟩

end ClientMobile
